import Mathlib

/-!
Formal model of `chromecastize.py`: a batch tool that probes media files,
decides the minimal transform to make them Chromecast-compatible, runs the
transform, and keeps an append-only ledger of already-good files.

The shallow embedding follows the source line by line:
* paths are absolute path strings; `pathSuffix`/`withSuffix` mirror
  `pathlib.Path.suffix`/`Path.with_suffix` (the suffix includes the dot;
  the dot index must be inside the file name and neither first nor last);
* the filesystem is an association list from path to content;
* the ledger file `~/.chromecastize/processed_files` is a separate `Option`
  field of the state: `none` models the file being absent (opening it for
  reading then raises `FileNotFoundError`, modelled as an aborting outcome);
* `MediaInfo.parse` is an external probe oracle `Env.probe`; `ffmpeg.run`
  is an external oracle returning success (with the written content) or an
  error (with an optional partially-written content);
* uncaught Python exceptions (`FileNotFoundError` on the absent ledger,
  `StopIteration` from `next(filter(...))` on missing tracks) become the
  `Outcome.raised` outcome, which aborts the surrounding batch loop exactly
  as a propagating exception would.
Every invocation of an external capability is recorded in an event list so
that theorems can speak about which calls were made.
-/

/-! ### Constants (lines 11-20 of the source) -/

def _SUPPORTED_EXTENSIONS : List String :=
  ["mkv", "avi", "mp4", "3gp", "mov", "mpg", "mpeg", "qt", "wmv", "m2ts", "flv"]

def _SUPPORTED_SUBTITLE_EXTENSIONS : List String := ["srt", "ssa"]

def _SUPPORTED_GFORMATS : List String := ["MPEG-4", "Matroska"]

def _SUPPORTED_VCODECS : List String := ["AVC"]

def _SUPPORTED_ACODECS : List String := ["AAC", "MPEG Audio", "Vorbis", "Ogg", "Opus"]

def _DEFAULT_VCODEC : String := "h264"

def _DEFAULT_ACODEC : String := "libvorbis"

def _DEFAULT_GFORMAT : String := "mp4"

/-! ### Path arithmetic (pathlib semantics)

`Path(p).suffix` looks only at the final path component; the last dot counts
only if it is neither the first nor the last character of the name.
`Path(p).with_suffix(s)` drops the current suffix and appends `s`. -/

/-- Characters of the final path component, reversed (the part of the
reversed path before the first slash). -/
def revName (cs : List Char) : List Char :=
  cs.reverse.takeWhile (fun c => c != '/')

/-- `pathlib.Path.suffix`, on the character list of the path. -/
def sfxChars (cs : List Char) : List Char :=
  if 0 < ((revName cs).takeWhile (fun c => c != '.')).length ∧
      ((revName cs).takeWhile (fun c => c != '.')).length + 1 < (revName cs).length then
    '.' :: ((revName cs).takeWhile (fun c => c != '.')).reverse
  else []

/-- `pathlib.Path.suffix` (includes the leading dot, or is empty). -/
def pathSuffix (p : String) : String :=
  ⟨sfxChars p.data⟩

/-- `pathlib.Path.with_suffix`: strip the current suffix, append `s`. -/
def withSuffixChars (cs s : List Char) : List Char :=
  cs.take (cs.length - (sfxChars cs).length) ++ s

/-- `pathlib.Path.with_suffix` on path strings. -/
def withSuffix (p s : String) : String :=
  ⟨withSuffixChars p.data s.data⟩

/-- Python `str.replace('.', '')`: drop every dot. -/
def stripDots (s : String) : String :=
  ⟨s.data.filter (fun c => c != '.')⟩

/-- Line 75: `extension.replace('.', '') in _SUPPORTED_EXTENSIONS`,
with `extension = video_file.suffix` (line 74). -/
def supportedExtB (p : String) : Bool :=
  decide (stripDots (pathSuffix p) ∈ _SUPPORTED_EXTENSIONS)

/-! ### Data model -/

/-- One record of the probe capability (`pymediainfo` track):
role tag, format identifier and (for audio) channel count. -/
structure Track where
  track_type : String
  format : String
  channel_s : Nat
deriving DecidableEq

/-- Result of one external `ffmpeg` run: success with the content written to
the output path, or an error with an optional partially-written content. -/
inductive FfmpegResult
  | ok (written : String)
  | err (written : Option String)
deriving DecidableEq

/-- The external capabilities consumed by the program: the metadata probe,
the media transform, the subtitle transform and encoding detection. -/
structure Env where
  probe : String → List Track
  ffm : String → String → FfmpegResult
  subFfm : String → String → FfmpegResult
  detectEnc : String → String

/-- Program state: the filesystem (path to content) and the ledger file
`~/.chromecastize/processed_files` (`none` when the file does not exist,
otherwise its lines). -/
structure St where
  fs : List (String × String)
  ledger : Option (List String)
deriving DecidableEq

/-- Uncaught Python exceptions that escape `process_file`. -/
inductive RunError
  | fileNotFound
  | stopIteration
deriving DecidableEq

/-- Terminal outcome of processing one path. -/
inductive Outcome
  | skippedExt
  | skippedLedger
  | skippedProbe
  | markedGood
  | transformed
  | transformFailed
  | raised (e : RunError)
  | pathMissing
  | pathInvalid
deriving DecidableEq

/-- Log of external invocations made while processing. -/
inductive Event
  | probe (p : String)
  | decision (p : String) (ov : Option String) (result : String)
  | media (src dst vcodec acodec : String)
  | sub (src dst enc : String)
deriving DecidableEq

def isRaisedB : Outcome → Bool
  | Outcome.raised _ => true
  | _ => false

def isSkipB : Outcome → Bool
  | Outcome.skippedExt => true
  | Outcome.skippedLedger => true
  | Outcome.skippedProbe => true
  | _ => false

def isMediaB : Event → Bool
  | Event.media _ _ _ _ => true
  | _ => false

def isProbeB : Event → Bool
  | Event.probe _ => true
  | _ => false

/-- Destinations of the media-transform invocations in an event list. -/
def mediaDsts (evs : List Event) : List String :=
  evs.filterMap (fun e => match e with
    | Event.media _ d _ _ => some d
    | _ => none)

/-! ### Filesystem operations -/

def fsLookup (q : String) : List (String × String) → Option String
  | [] => none
  | kv :: rest => if kv.1 = q then some kv.2 else fsLookup q rest

def fsRemove (q : String) (fs : List (String × String)) : List (String × String) :=
  fs.filter (fun kv => kv.1 ≠ q)

def fsInsert (q c : String) (fs : List (String × String)) : List (String × String) :=
  (q, c) :: fsRemove q fs

def fsExists (q : String) (fs : List (String × String)) : Bool :=
  (fsLookup q fs).isSome

/-- `Path.replace`: rename `src` to `dst`, overwriting `dst`.  On a missing
`src` Python would raise; the model leaves the filesystem unchanged there
(all uses in the proofs are at existing sources). -/
def replacePath (src dst : String) (fs : List (String × String)) : List (String × String) :=
  match fsLookup src fs with
  | some c => fsInsert dst c (fsRemove src fs)
  | none => fs

/-! ### The program (lines 29-148) -/

/-- Lines 29-30. -/
def is_supported_acodec (codec : String) (channels : Nat) : Bool :=
  !(codec == "AAC" && decide (2 < channels)) && decide (codec ∈ _SUPPORTED_ACODECS)

/-- Lines 32-34: append one line to the ledger, creating the file
(`open(mode='a')`) when it is absent. -/
def mark_as_good (video_file : String) (st : St) : St :=
  { st with ledger := some (st.ledger.getD [] ++ [video_file]) }

/-- Loop of lines 40-42: the first supported subtitle extension whose
sibling file exists (the Python loop breaks after the first hit). -/
def firstSubtitle (fs : List (String × String)) (video_file : String) : Option String :=
  (_SUPPORTED_SUBTITLE_EXTENSIONS.map (fun e => withSuffix video_file ("." ++ e))).find?
    (fun s => fsExists s fs)

/-- Lines 36-54: generate a `.vtt` sibling from an `.srt`/`.ssa` sibling
when the `.vtt` does not exist yet; an `ffmpeg.Error` is caught and only
reported. -/
def process_subtitle_file (env : Env) (st : St) (video_file : String) : St × List Event :=
  let destination_subtitle := withSuffix video_file ".vtt"
  if fsExists destination_subtitle st.fs then (st, [])
  else
    match firstSubtitle st.fs video_file with
    | none => (st, [])
    | some subtitle =>
      let e0 := env.detectEnc subtitle
      let sub_encoding := if e0 = "unknown-8bit" then "iso-8859-1" else e0
      match env.subFfm subtitle destination_subtitle with
      | FfmpegResult.ok c =>
          ({ st with fs := fsInsert destination_subtitle c st.fs },
           [Event.sub subtitle destination_subtitle sub_encoding])
      | FfmpegResult.err w =>
          (match w with
           | some c => { st with fs := fsInsert destination_subtitle c st.fs }
           | none => st,
           [Event.sub subtitle destination_subtitle sub_encoding])

/-- Lines 56-61: rename the original to `<path>.<suffix>.bak`, then record
the destination in the ledger. -/
def on_success (original_file destination_file : String) (st : St) : St :=
  let original_backup := withSuffix original_file (pathSuffix original_file ++ ".bak")
  mark_as_good destination_file { st with fs := replacePath original_file original_backup st.fs }

/-- Lines 63-67: delete the destination if it exists. -/
def on_failure (video_file destination_file : String) (st : St) : St :=
  if fsExists destination_file st.fs then { st with fs := fsRemove destination_file st.fs }
  else st

/-- Lines 95-99: the container decision.  Python operator precedence makes
the condition `(format in _SUPPORTED_GFORMATS and not override_gformat) or
override_gformat == extension`; `not override_gformat` is Python truthiness
(`None` and the empty string are falsy), and `extension` carries its dot. -/
def output_gformat_of (fmt : String) (override_gformat : Option String) (extension : String) : String :=
  if (fmt ∈ _SUPPORTED_GFORMATS ∧ (override_gformat = none ∨ override_gformat = some "")) ∨
      override_gformat = some extension then "ok"
  else
    match override_gformat with
    | some s => if s = "" then _DEFAULT_GFORMAT else s
    | none => _DEFAULT_GFORMAT

/-- `next(filter(lambda t: t.track_type == ty, media_info.tracks))`;
`none` models the `StopIteration` case. -/
def findTrack (tracks : List Track) (ty : String) : Option Track :=
  tracks.find? (fun t => t.track_type == ty)

/-- Lines 115-130: derive the destination name and run `ffmpeg`; on success
call `on_success`, on `ffmpeg.Error` call `on_failure`.  `extension` is
recomputed from the path (it equals the value computed at line 74). -/
def transform_phase (env : Env) (st : St) (video_file output_gformat output_vcodec output_acodec : String)
    (evs : List Event) : St × Outcome × List Event :=
  let extension := pathSuffix video_file
  let og2 := if output_gformat = "ok" then extension else output_gformat
  let destination_file := withSuffix video_file ("." ++ og2)
  let evs := evs ++ [Event.media video_file destination_file output_vcodec output_acodec]
  match env.ffm video_file destination_file with
  | FfmpegResult.ok c =>
      (on_success video_file destination_file { st with fs := fsInsert destination_file c st.fs },
       Outcome.transformed, evs)
  | FfmpegResult.err w =>
      (on_failure video_file destination_file
        (match w with
         | some c => { st with fs := fsInsert destination_file c st.fs }
         | none => st),
       Outcome.transformFailed, evs)

/-- Lines 87-130: probe, decide and act.  A missing General/Video/Audio
track raises `StopIteration` from the unguarded `next(filter(...))`. -/
def media_phase (env : Env) (st : St) (video_file : String) (override_gformat : Option String)
    (evs : List Event) : St × Outcome × List Event :=
  let tracks := env.probe video_file
  match findTrack tracks "General" with
  | none => (st, Outcome.raised RunError.stopIteration, evs)
  | some general_track =>
    if general_track.format = "" then (st, Outcome.skippedProbe, evs)
    else
      let output_gformat := output_gformat_of general_track.format override_gformat (pathSuffix video_file)
      let evs := evs ++ [Event.decision video_file override_gformat output_gformat]
      match findTrack tracks "Video" with
      | none => (st, Outcome.raised RunError.stopIteration, evs)
      | some video_track =>
        let output_vcodec := if video_track.format ∈ _SUPPORTED_VCODECS then "copy" else _DEFAULT_VCODEC
        match findTrack tracks "Audio" with
        | none => (st, Outcome.raised RunError.stopIteration, evs)
        | some audio_track =>
          let output_acodec :=
            if is_supported_acodec audio_track.format audio_track.channel_s then "copy"
            else _DEFAULT_ACODEC
          if output_vcodec = "copy" ∧ output_acodec = "copy" ∧ output_gformat = "ok" then
            (mark_as_good video_file st, Outcome.markedGood, evs)
          else
            transform_phase env st video_file output_gformat output_vcodec output_acodec evs

/-- Lines 69-130: one file.  Order: extension filter, subtitle pass, ledger
short-circuit (the ledger is opened for reading: absent means
`FileNotFoundError`), then probe/decide/act. -/
def process_file (env : Env) (st : St) (video_file : String)
    (override_gformat : Option String := none) : St × Outcome × List Event :=
  if supportedExtB video_file then
    let s1 := process_subtitle_file env st video_file
    match s1.1.ledger with
    | none => (s1.1, Outcome.raised RunError.fileNotFound, s1.2)
    | some lines =>
      if video_file ∈ lines then (s1.1, Outcome.skippedLedger, s1.2)
      else media_phase env s1.1 video_file override_gformat (s1.2 ++ [Event.probe video_file])
  else (st, Outcome.skippedExt, [])

/-- The inner loop of lines 138-139: `process_file` over a list of files.
A raised exception aborts the loop, exactly like a propagating Python
exception: the remaining files get no outcome. -/
def runBatch (env : Env) (ov : Option String) : St → List String → St × List (String × Outcome) × List Event
  | st, [] => (st, [], [])
  | st, p :: rest =>
    let r := process_file env st p ov
    if isRaisedB r.2.1 then (r.1, [(p, r.2.1)], r.2.2)
    else
      let rr := runBatch env ov r.1 rest
      (rr.1, (p, r.2.1) :: rr.2.1, r.2.2 ++ rr.2.2)

/-- Classification of a command-line path argument (the `exists`/`is_dir`/
`is_file` tests of lines 135-142, abstracted to an input attribute). -/
inductive PathKind
  | missing
  | dir (children : List String)
  | file
  | special
deriving DecidableEq

/-- Lines 133-143: the batch runner.  Directory children and plain files go
through `process_file` with no `override_gformat` argument (the source
passes none); exceptions propagate out. -/
def main (env : Env) : St → List (String × PathKind) → St × List (String × Outcome) × List Event
  | st, [] => (st, [], [])
  | st, input :: rest =>
    match input.2 with
    | PathKind.missing =>
      let r := main env st rest
      (r.1, (input.1, Outcome.pathMissing) :: r.2.1, r.2.2)
    | PathKind.dir cs =>
      let rb := runBatch env none st cs
      if rb.2.1.any (fun po => isRaisedB po.2) then rb
      else
        let r := main env rb.1 rest
        (r.1, rb.2.1 ++ r.2.1, rb.2.2 ++ r.2.2)
    | PathKind.file =>
      let rf := process_file env st input.1 none
      if isRaisedB rf.2.1 then (rf.1, [(input.1, rf.2.1)], rf.2.2)
      else
        let r := main env rf.1 rest
        (r.1, (input.1, rf.2.1) :: r.2.1, rf.2.2 ++ r.2.2)
    | PathKind.special =>
      let r := main env st rest
      (r.1, (input.1, Outcome.pathInvalid) :: r.2.1, r.2.2)

/-- The `--mkv`/`--mp4` mutually exclusive flag pair of lines 22-25. -/
inductive CliOverride
  | noFlag
  | mkv
  | mp4
deriving DecidableEq

/-- Lines 145-148: parse the arguments, then call `main(args.videofile)`.
The parsed flag selection is dropped on the floor: `main` receives only the
path list, so every `process_file` call uses the default `None` override. -/
def runProgram (_flags : CliOverride) (env : Env) (st : St) (paths : List (String × PathKind)) :
    St × List (String × Outcome) × List Event :=
  main env st paths

/-! ### Derived predicates used by the theorems -/

/-- The probe result for `p` is well-formed enough for `process_file` not to
raise: a General track exists, and when its format is non-empty a Video and
an Audio track exist as well. -/
def probeGoodB (env : Env) (p : String) : Bool :=
  match findTrack (env.probe p) "General" with
  | none => false
  | some g => g.format == "" || ((findTrack (env.probe p) "Video").isSome &&
      (findTrack (env.probe p) "Audio").isSome)

/-- The probe reports an empty General format for `p` (the only probe
anomaly `process_file` handles, by skipping). -/
def probeEmptyB (env : Env) (p : String) : Bool :=
  match findTrack (env.probe p) "General" with
  | none => false
  | some g => g.format == ""

/-- Number of `process_file` invocations line 133-143 makes for the inputs. -/
def totalFiles : List (String × PathKind) → Nat
  | [] => 0
  | (_, PathKind.dir cs) :: rest => cs.length + totalFiles rest
  | _ :: rest => 1 + totalFiles rest

/-- The files an input contributes to the batch. -/
def inputFiles : String × PathKind → List String
  | (_, PathKind.dir cs) => cs
  | (p, PathKind.file) => [p]
  | _ => []

/-- The decision of §4.1 at probed tracks `g`, `v`, `a`: video copy, audio
copy and container unchanged. -/
def compliantDecision (g v a : Track) (ov : Option String) (extension : String) : Prop :=
  (if v.format ∈ _SUPPORTED_VCODECS then "copy" else _DEFAULT_VCODEC) = "copy" ∧
  (if is_supported_acodec a.format a.channel_s then "copy" else _DEFAULT_ACODEC) = "copy" ∧
  output_gformat_of g.format ov extension = "ok"

instance (g v a : Track) (ov : Option String) (extension : String) :
    Decidable (compliantDecision g v a ov extension) := by
  unfold compliantDecision
  infer_instance

/-! ### takeWhile helpers -/

theorem takeWhile_append_all {α : Type} (q : α → Bool) (xs ys : List α)
    (h : ∀ c ∈ xs, q c = true) :
    List.takeWhile q (xs ++ ys) = xs ++ List.takeWhile q ys := by
  induction xs with
  | nil => simp
  | cons a l ih =>
    have ha : q a = true := h a (List.mem_cons_self a l)
    have hl : ∀ c ∈ l, q c = true := fun c hc => h c (List.mem_cons_of_mem a hc)
    simp [List.takeWhile_cons, ha, ih hl]

theorem takeWhile_append_stop {α : Type} (q : α → Bool) (xs : List α) (c : α) (ys : List α)
    (h : ∀ a ∈ xs, q a = true) (hc : q c = false) :
    List.takeWhile q (xs ++ c :: ys) = xs := by
  rw [takeWhile_append_all q xs (c :: ys) h, List.takeWhile_cons, hc]
  simp

/-- The last dot of a name of the form `stem ++ u ++ "." ++ t` (with `t`
dot-free and non-empty, everything after the last slash) yields the suffix
`"." ++ t`, except in the degenerate case where the dot would be the first
character of the name (then the suffix is empty). -/
theorem sfxChars_concat (stem u t : List Char)
    (ht : t ≠ []) (htd : ∀ c ∈ t, c ≠ '.') (hts : ∀ c ∈ t, c ≠ '/')
    (hus : ∀ c ∈ u, c ≠ '/') :
    sfxChars (stem ++ (u ++ '.' :: t)) = '.' :: t ∨ sfxChars (stem ++ (u ++ '.' :: t)) = [] := by
  have hrev : (stem ++ (u ++ '.' :: t)).reverse =
      t.reverse ++ '.' :: (u.reverse ++ stem.reverse) := by
    simp [List.reverse_append, List.reverse_cons, List.append_assoc]
  have htr : ∀ c ∈ t.reverse, (c != '/') = true := by
    intro c hc
    simp only [bne_iff_ne, ne_eq]
    exact hts c (List.mem_reverse.mp hc)
  have hur : ∀ c ∈ u.reverse, (c != '/') = true := by
    intro c hc
    simp only [bne_iff_ne, ne_eq]
    exact hus c (List.mem_reverse.mp hc)
  have hdot : (('.' : Char) != '/') = true := by decide
  have hrn : revName (stem ++ (u ++ '.' :: t)) =
      t.reverse ++ '.' :: List.takeWhile (fun c => c != '/') (u.reverse ++ stem.reverse) := by
    rw [revName, hrev, takeWhile_append_all _ _ _ htr, List.takeWhile_cons, hdot]
    simp
  have htd' : ∀ c ∈ t.reverse, ((fun c => c != '.') c) = true := by
    intro c hc
    simp only [bne_iff_ne, ne_eq]
    exact htd c (List.mem_reverse.mp hc)
  have hpre : List.takeWhile (fun c => c != '.') (revName (stem ++ (u ++ '.' :: t))) =
      t.reverse := by
    rw [hrn]
    exact takeWhile_append_stop _ _ _ _ htd' (by decide)
  rw [sfxChars, hpre, hrn]
  by_cases hR : 0 < (List.takeWhile (fun c => c != '/') (u.reverse ++ stem.reverse)).length
  · left
    rw [if_pos]
    · simp
    constructor
    · simpa using List.length_pos.mpr ht
    · simp only [List.length_append, List.length_cons, List.length_reverse]
      omega
  · right
    rw [if_neg]
    intro hcond
    apply hR
    have := hcond.2
    simp only [List.length_append, List.length_cons, List.length_reverse] at this
    omega

/-- Characters of a path suffix are never slashes. -/
theorem sfxChars_no_slash (cs : List Char) : ∀ c ∈ sfxChars cs, c ≠ '/' := by
  intro c hc
  rw [sfxChars] at hc
  split at hc
  · rcases List.mem_cons.mp hc with h | h
    · subst h; decide
    · have h1 : c ∈ List.takeWhile (fun c => c != '.') (revName cs) :=
        List.mem_reverse.mp h
      have h2 : c ∈ List.takeWhile (fun c => c != '/') cs.reverse := by
        rw [revName] at h1
        exact (List.takeWhile_prefix _).subset h1
      have h3 := List.mem_takeWhile_imp h2
      simpa [bne_iff_ne] using h3
  · simp at hc

/-- A path whose name was rebuilt as `<stem><u>.<t>` (with `t` a dot-free,
slash-free, non-empty literal that is not a supported extension) fails the
extension check of line 75. -/
theorem supportedExtB_withSuffix_bad (p u t : String)
    (ht : t.data ≠ []) (htd : ∀ c ∈ t.data, c ≠ '.') (hts : ∀ c ∈ t.data, c ≠ '/')
    (hus : ∀ c ∈ u.data, c ≠ '/')
    (hbad1 : stripDots ⟨'.' :: t.data⟩ ∉ _SUPPORTED_EXTENSIONS)
    (hbad2 : ("" : String) ∉ _SUPPORTED_EXTENSIONS) :
    supportedExtB (withSuffix p (u ++ ("." ++ t))) = false := by
  have hdata : (withSuffix p (u ++ ("." ++ t))).data =
      p.data.take (p.data.length - (sfxChars p.data).length) ++ (u.data ++ '.' :: t.data) := by
    rw [withSuffix, withSuffixChars]
    simp [String.data_append]
  have hd := sfxChars_concat (p.data.take (p.data.length - (sfxChars p.data).length))
    u.data t.data ht htd hts hus
  rw [supportedExtB, decide_eq_false_iff_not]
  intro hmem
  rw [pathSuffix, hdata] at hmem
  rcases hd with h | h
  · rw [h] at hmem
    exact hbad1 hmem
  · rw [h] at hmem
    have : stripDots ⟨([] : List Char)⟩ = "" := rfl
    rw [this] at hmem
    exact hbad2 hmem

/-- The backup name `<path>.<suffix>.bak` created by `on_success` never has
a supported media extension. -/
theorem supportedExtB_backup (p : String) :
    supportedExtB (withSuffix p (pathSuffix p ++ ".bak")) = false := by
  have h1 : (".bak" : String) = "." ++ "bak" := by decide
  rw [h1]
  apply supportedExtB_withSuffix_bad
  · decide
  · decide
  · decide
  · intro c hc
    exact sfxChars_no_slash p.data c hc
  · decide
  · decide

/-- The caption sibling `<name>.vtt` never has a supported media extension. -/
theorem supportedExtB_vtt (p : String) :
    supportedExtB (withSuffix p ".vtt") = false := by
  have h1 : (".vtt" : String) = "" ++ ("." ++ "vtt") := by decide
  rw [h1]
  apply supportedExtB_withSuffix_bad
  · decide
  · decide
  · decide
  · intro c hc
    simp at hc
  · decide
  · decide

/-- If `p` has a supported extension it cannot be its own `.vtt` sibling. -/
theorem vtt_ne_self (p : String) (h : supportedExtB p = true) :
    withSuffix p ".vtt" ≠ p := by
  intro he
  have hb := supportedExtB_vtt p
  rw [he, h] at hb
  exact absurd hb (by simp)

/-! ### Filesystem lemmas -/

theorem fsLookup_insert_self (q c : String) (fs : List (String × String)) :
    fsLookup q (fsInsert q c fs) = some c := by
  simp [fsInsert, fsLookup]

theorem fsRemove_cons (k : String) (kv : String × String) (rest : List (String × String)) :
    fsRemove k (kv :: rest) =
      if kv.1 = k then fsRemove k rest else kv :: fsRemove k rest := by
  rw [fsRemove, List.filter_cons]
  by_cases h : kv.1 = k
  · simp [h, fsRemove]
  · simp [h, fsRemove]

theorem fsLookup_remove_ne (k q : String) (fs : List (String × String)) (h : k ≠ q) :
    fsLookup q (fsRemove k fs) = fsLookup q fs := by
  induction fs with
  | nil => rfl
  | cons kv rest ih =>
    rw [fsRemove_cons]
    by_cases hk : kv.1 = k
    · have hq : kv.1 ≠ q := fun e => h (hk.symm.trans e)
      rw [if_pos hk, ih, fsLookup, if_neg hq]
    · rw [if_neg hk, fsLookup, fsLookup]
      by_cases hq : kv.1 = q
      · rw [if_pos hq, if_pos hq]
      · rw [if_neg hq, if_neg hq, ih]

theorem fsLookup_remove_self (q : String) (fs : List (String × String)) :
    fsLookup q (fsRemove q fs) = none := by
  induction fs with
  | nil => rfl
  | cons kv rest ih =>
    rw [fsRemove_cons]
    by_cases hk : kv.1 = q
    · rw [if_pos hk]; exact ih
    · rw [if_neg hk, fsLookup, if_neg hk]; exact ih

theorem fsLookup_insert_ne (k c q : String) (fs : List (String × String)) (h : k ≠ q) :
    fsLookup q (fsInsert k c fs) = fsLookup q fs := by
  rw [fsInsert, fsLookup]
  simp only [h, if_neg]
  exact fsLookup_remove_ne k q fs h

theorem fsExists_insert (k c q : String) (fs : List (String × String))
    (h : fsExists q (fsInsert k c fs) = true) :
    q = k ∨ fsExists q fs = true := by
  by_cases hq : q = k
  · left; exact hq
  · right
    rw [fsExists, fsLookup_insert_ne k c q fs (fun he => hq he.symm)] at h
    exact h

theorem fsExists_remove (k q : String) (fs : List (String × String))
    (h : fsExists q (fsRemove k fs) = true) :
    fsExists q fs = true := by
  by_cases hk : k = q
  · rw [fsExists, hk, fsLookup_remove_self] at h
    simp at h
  · rwa [fsExists, fsLookup_remove_ne k q fs hk] at h

theorem fsExists_replacePath (src dst q : String) (fs : List (String × String))
    (h : fsExists q (replacePath src dst fs) = true) :
    q = dst ∨ fsExists q fs = true := by
  rw [replacePath] at h
  split at h
  · rcases fsExists_insert dst _ q _ h with h1 | h1
    · left; exact h1
    · right; exact fsExists_remove src q fs h1
  · right; exact h

/-! ### Subtitle pass lemmas -/

theorem process_subtitle_ledger (env : Env) (st : St) (p : String) :
    (process_subtitle_file env st p).1.ledger = st.ledger := by
  rw [process_subtitle_file]
  split
  · rfl
  · split
    · rfl
    · split
      · rfl
      · split <;> rfl

theorem process_subtitle_events (env : Env) (st : St) (p : String) :
    (process_subtitle_file env st p).2.all (fun e => !isMediaB e && !isProbeB e) = true := by
  rw [process_subtitle_file]
  split
  · rfl
  · split
    · rfl
    · split
      · simp [isMediaB, isProbeB]
      · simp [isMediaB, isProbeB]

theorem process_subtitle_fs (env : Env) (st : St) (p q : String)
    (h : fsExists q (process_subtitle_file env st p).1.fs = true) :
    q = withSuffix p ".vtt" ∨ fsExists q st.fs = true := by
  rw [process_subtitle_file] at h
  split at h
  · right; exact h
  · split at h
    · right; exact h
    · split at h
      · exact fsExists_insert _ _ _ _ h
      · split at h
        · exact fsExists_insert _ _ _ _ h
        · right; exact h

theorem process_subtitle_fs_ne (env : Env) (st : St) (p q : String)
    (h : q ≠ withSuffix p ".vtt") :
    fsLookup q (process_subtitle_file env st p).1.fs = fsLookup q st.fs := by
  rw [process_subtitle_file]
  split
  · rfl
  · split
    · rfl
    · split
      · exact fsLookup_insert_ne _ _ _ _ (fun e => h e.symm)
      · split
        · exact fsLookup_insert_ne _ _ _ _ (fun e => h e.symm)
        · rfl

/-! ### Branch equations for `process_file` and its phases -/

/-- Destination path derived at lines 115-120 for a given container
decision. -/
def destinationOf (video_file output_gformat : String) : String :=
  withSuffix video_file ("." ++ (if output_gformat = "ok" then pathSuffix video_file else output_gformat))

def isOkB : FfmpegResult → Bool
  | FfmpegResult.ok _ => true
  | _ => false

theorem transform_phase_eq (env : Env) (st : St) (vf g vc ac : String) (evs : List Event) :
    transform_phase env st vf g vc ac evs =
      match env.ffm vf (destinationOf vf g) with
      | FfmpegResult.ok c =>
          (on_success vf (destinationOf vf g) { st with fs := fsInsert (destinationOf vf g) c st.fs },
           Outcome.transformed, evs ++ [Event.media vf (destinationOf vf g) vc ac])
      | FfmpegResult.err w =>
          (on_failure vf (destinationOf vf g)
            (match w with
             | some c => { st with fs := fsInsert (destinationOf vf g) c st.fs }
             | none => st),
           Outcome.transformFailed, evs ++ [Event.media vf (destinationOf vf g) vc ac]) := rfl

theorem process_file_ext_skip (env : Env) (st : St) (p : String) (ov : Option String)
    (h : supportedExtB p = false) :
    process_file env st p ov = (st, Outcome.skippedExt, []) := by
  simp [process_file, h]

theorem process_file_ledger_absent (env : Env) (st : St) (p : String) (ov : Option String)
    (hext : supportedExtB p = true) (h : st.ledger = none) :
    process_file env st p ov =
      ((process_subtitle_file env st p).1, Outcome.raised RunError.fileNotFound,
       (process_subtitle_file env st p).2) := by
  have hs := process_subtitle_ledger env st p
  rw [h] at hs
  simp [process_file, hext, hs]

theorem process_file_ledger_hit_eq (env : Env) (st : St) (p : String) (ov : Option String)
    (l : List String) (hext : supportedExtB p = true) (hl : st.ledger = some l) (hmem : p ∈ l) :
    process_file env st p ov =
      ((process_subtitle_file env st p).1, Outcome.skippedLedger,
       (process_subtitle_file env st p).2) := by
  have hs := process_subtitle_ledger env st p
  rw [hl] at hs
  simp [process_file, hext, hs, hmem]

theorem process_file_to_media (env : Env) (st : St) (p : String) (ov : Option String)
    (l : List String) (hext : supportedExtB p = true) (hl : st.ledger = some l) (hmem : p ∉ l) :
    process_file env st p ov =
      media_phase env (process_subtitle_file env st p).1 p ov
        ((process_subtitle_file env st p).2 ++ [Event.probe p]) := by
  have hs := process_subtitle_ledger env st p
  rw [hl] at hs
  simp [process_file, hext, hs, hmem]

theorem media_phase_no_general (env : Env) (st : St) (vf : String) (ov : Option String)
    (evs : List Event) (h : findTrack (env.probe vf) "General" = none) :
    media_phase env st vf ov evs = (st, Outcome.raised RunError.stopIteration, evs) := by
  simp [media_phase, h]

theorem media_phase_empty_format (env : Env) (st : St) (vf : String) (ov : Option String)
    (evs : List Event) (g : Track) (hg : findTrack (env.probe vf) "General" = some g)
    (hf : g.format = "") :
    media_phase env st vf ov evs = (st, Outcome.skippedProbe, evs) := by
  simp [media_phase, hg, hf]

theorem media_phase_no_video (env : Env) (st : St) (vf : String) (ov : Option String)
    (evs : List Event) (g : Track) (hg : findTrack (env.probe vf) "General" = some g)
    (hf : ¬ g.format = "") (hv : findTrack (env.probe vf) "Video" = none) :
    media_phase env st vf ov evs =
      (st, Outcome.raised RunError.stopIteration,
       evs ++ [Event.decision vf ov (output_gformat_of g.format ov (pathSuffix vf))]) := by
  simp [media_phase, hg, hf, hv]

theorem media_phase_no_audio (env : Env) (st : St) (vf : String) (ov : Option String)
    (evs : List Event) (g v : Track) (hg : findTrack (env.probe vf) "General" = some g)
    (hf : ¬ g.format = "") (hv : findTrack (env.probe vf) "Video" = some v)
    (ha : findTrack (env.probe vf) "Audio" = none) :
    media_phase env st vf ov evs =
      (st, Outcome.raised RunError.stopIteration,
       evs ++ [Event.decision vf ov (output_gformat_of g.format ov (pathSuffix vf))]) := by
  simp [media_phase, hg, hf, hv, ha]

theorem media_phase_compliant (env : Env) (st : St) (vf : String) (ov : Option String)
    (evs : List Event) (g v a : Track) (hg : findTrack (env.probe vf) "General" = some g)
    (hf : ¬ g.format = "") (hv : findTrack (env.probe vf) "Video" = some v)
    (ha : findTrack (env.probe vf) "Audio" = some a)
    (hc : compliantDecision g v a ov (pathSuffix vf)) :
    media_phase env st vf ov evs =
      (mark_as_good vf st, Outcome.markedGood,
       evs ++ [Event.decision vf ov (output_gformat_of g.format ov (pathSuffix vf))]) := by
  unfold compliantDecision at hc
  simp only [media_phase, hg, hf, hv, ha, if_neg hf]
  rw [if_pos hc]
  simp

theorem media_phase_transform (env : Env) (st : St) (vf : String) (ov : Option String)
    (evs : List Event) (g v a : Track) (hg : findTrack (env.probe vf) "General" = some g)
    (hf : ¬ g.format = "") (hv : findTrack (env.probe vf) "Video" = some v)
    (ha : findTrack (env.probe vf) "Audio" = some a)
    (hc : ¬ compliantDecision g v a ov (pathSuffix vf)) :
    media_phase env st vf ov evs =
      transform_phase env st vf (output_gformat_of g.format ov (pathSuffix vf))
        (if v.format ∈ _SUPPORTED_VCODECS then "copy" else _DEFAULT_VCODEC)
        (if is_supported_acodec a.format a.channel_s then "copy" else _DEFAULT_ACODEC)
        (evs ++ [Event.decision vf ov (output_gformat_of g.format ov (pathSuffix vf))]) := by
  unfold compliantDecision at hc
  simp only [media_phase, hg, hf, hv, ha, if_neg hf]
  rw [if_neg hc]
  simp

/-! ### Ledger and filesystem effects of success / failure handlers -/

theorem on_failure_ledger (vf d : String) (st : St) :
    (on_failure vf d st).ledger = st.ledger := by
  rw [on_failure]
  split <;> rfl

theorem on_success_ledger (o d : String) (st : St) (l : List String) (hl : st.ledger = some l) :
    (on_success o d st).ledger = some (l ++ [d]) := by
  rw [on_success, mark_as_good]
  simp [hl]

theorem on_success_fs (o d : String) (st : St) (q : String)
    (h : fsExists q (on_success o d st).fs = true) :
    q = withSuffix o (pathSuffix o ++ ".bak") ∨ (fsExists q st.fs = true ∧ q ≠ o) := by
  rw [on_success, mark_as_good] at h
  simp only at h
  rw [replacePath] at h
  split at h
  next c heq =>
    rcases fsExists_insert _ _ _ _ h with h1 | h1
    · left; exact h1
    · right
      constructor
      · exact fsExists_remove o q _ h1
      · intro he
        rw [he, fsExists, fsLookup_remove_self] at h1
        simp at h1
  next heq =>
    right
    constructor
    · exact h
    · intro he
      rw [he, fsExists, heq] at h
      simp at h

theorem on_failure_fs (vf d : String) (st : St) (q : String)
    (h : fsExists q (on_failure vf d st).fs = true) :
    fsExists q st.fs = true ∧ q ≠ d := by
  rw [on_failure] at h
  split at h
  next hex =>
    simp only at h
    constructor
    · exact fsExists_remove d q _ h
    · intro he
      rw [he, fsExists, fsLookup_remove_self] at h
      simp at h
  next hex =>
    constructor
    · exact h
    · intro he
      rw [he] at h
      exact hex h

theorem transform_phase_fs_ok (env : Env) (st : St) (vf g vc ac : String) (evs : List Event)
    (q c : String) (hffm : env.ffm vf (destinationOf vf g) = FfmpegResult.ok c)
    (h : fsExists q (transform_phase env st vf g vc ac evs).1.fs = true) :
    q = withSuffix vf (pathSuffix vf ++ ".bak") ∨
      (q ≠ vf ∧ (q = destinationOf vf g ∨ fsExists q st.fs = true)) := by
  rw [transform_phase_eq, hffm] at h
  simp only at h
  rcases on_success_fs vf (destinationOf vf g) _ q h with h1 | ⟨h1, h2⟩
  · left; exact h1
  · right
    refine ⟨h2, ?_⟩
    simp only at h1
    rcases fsExists_insert _ _ _ _ h1 with h3 | h3
    · left; exact h3
    · right; exact h3

theorem transform_phase_fs_err (env : Env) (st : St) (vf g vc ac : String) (evs : List Event)
    (q : String) (w : Option String)
    (hffm : env.ffm vf (destinationOf vf g) = FfmpegResult.err w)
    (h : fsExists q (transform_phase env st vf g vc ac evs).1.fs = true) :
    fsExists q st.fs = true := by
  rw [transform_phase_eq, hffm] at h
  simp only at h
  have h1 := on_failure_fs vf (destinationOf vf g) _ q h
  rcases h1 with ⟨h1, h2⟩
  rcases w with _ | c
  · exact h1
  · simp only at h1
    rcases fsExists_insert _ _ _ _ h1 with h3 | h3
    · exact absurd h3 h2
    · exact h3

theorem transform_phase_ledger (env : Env) (st : St) (vf g vc ac : String) (evs : List Event)
    (l : List String) (hl : st.ledger = some l) :
    ((transform_phase env st vf g vc ac evs).2.1 = Outcome.transformed ∧
      (transform_phase env st vf g vc ac evs).1.ledger = some (l ++ [destinationOf vf g])) ∨
    ((transform_phase env st vf g vc ac evs).2.1 = Outcome.transformFailed ∧
      (transform_phase env st vf g vc ac evs).1.ledger = some l) := by
  rw [transform_phase_eq]
  rcases hffm : env.ffm vf (destinationOf vf g) with c | w
  · left
    constructor
    · rfl
    · exact on_success_ledger vf (destinationOf vf g) _ l (by simpa using hl)
  · right
    constructor
    · rfl
    · rw [on_failure_ledger]
      rcases w with _ | c <;> simpa using hl

theorem transform_phase_events (env : Env) (st : St) (vf g vc ac : String) (evs : List Event) :
    (transform_phase env st vf g vc ac evs).2.2 =
      evs ++ [Event.media vf (destinationOf vf g) vc ac] := by
  rw [transform_phase_eq]
  rcases env.ffm vf (destinationOf vf g) with c | w <;> rfl

/-! ### Event bookkeeping -/

theorem all_sub_no_media (evs : List Event)
    (h : evs.all (fun e => !isMediaB e && !isProbeB e) = true) :
    evs.all (fun e => !isMediaB e) = true := by
  rw [List.all_eq_true] at *
  intro e he
  have hh := h e he
  rw [Bool.and_eq_true] at hh
  exact hh.1

theorem all_sub_no_probe (evs : List Event)
    (h : evs.all (fun e => !isMediaB e && !isProbeB e) = true) :
    evs.all (fun e => !isProbeB e) = true := by
  rw [List.all_eq_true] at *
  intro e he
  have hh := h e he
  rw [Bool.and_eq_true] at hh
  exact hh.2

theorem mediaDsts_append (l1 l2 : List Event) :
    mediaDsts (l1 ++ l2) = mediaDsts l1 ++ mediaDsts l2 := by
  simp [mediaDsts, List.filterMap_append]

theorem mediaDsts_nil_of_no_media (evs : List Event)
    (h : evs.all (fun e => !isMediaB e) = true) : mediaDsts evs = [] := by
  induction evs with
  | nil => rfl
  | cons e rest ih =>
    rw [List.all_cons, Bool.and_eq_true] at h
    have h2 := ih h.2
    cases e with
    | media s d vc ac => exact absurd h.1 (by simp [isMediaB])
    | probe p => simpa [mediaDsts, List.filterMap_cons] using h2
    | decision p ov r => simpa [mediaDsts, List.filterMap_cons] using h2
    | sub s d enc => simpa [mediaDsts, List.filterMap_cons] using h2

theorem mediaDsts_single_probe (p : String) : mediaDsts [Event.probe p] = [] := rfl

theorem mediaDsts_single_decision (p : String) (ov : Option String) (r : String) :
    mediaDsts [Event.decision p ov r] = [] := rfl

theorem mediaDsts_single_media (s d vc ac : String) :
    mediaDsts [Event.media s d vc ac] = [d] := rfl

/-! ### Destructuring the probe well-formedness predicate -/

theorem probeGoodB_elim (env : Env) (p : String) (hpg : probeGoodB env p = true) :
    ∃ g, findTrack (env.probe p) "General" = some g ∧
      (g.format = "" ∨ ((∃ v, findTrack (env.probe p) "Video" = some v) ∧
        ∃ a, findTrack (env.probe p) "Audio" = some a)) := by
  rw [probeGoodB] at hpg
  rcases hG : findTrack (env.probe p) "General" with _ | g
  · rw [hG] at hpg; simp at hpg
  · rw [hG] at hpg
    refine ⟨g, rfl, ?_⟩
    simp only [Bool.or_eq_true, beq_iff_eq, Bool.and_eq_true, Option.isSome_iff_exists] at hpg
    rcases hpg with h | ⟨⟨v, hv⟩, ⟨a, ha⟩⟩
    · left; exact h
    · right; exact ⟨⟨v, hv⟩, ⟨a, ha⟩⟩

/-! ### Composite behavior of `process_file` -/

theorem media_phase_no_raise (env : Env) (st : St) (vf : String) (ov : Option String)
    (evs : List Event) (l : List String) (hl : st.ledger = some l)
    (hpg : probeGoodB env vf = true) :
    isRaisedB (media_phase env st vf ov evs).2.1 = false ∧
    ∃ l2, (media_phase env st vf ov evs).1.ledger = some (l ++ l2) := by
  obtain ⟨g, hG, hrest⟩ := probeGoodB_elim env vf hpg
  by_cases hf : g.format = ""
  · rw [media_phase_empty_format env st vf ov evs g hG hf]
    exact ⟨rfl, ⟨[], by simpa using hl⟩⟩
  · rcases hrest with h | ⟨⟨v, hv⟩, ⟨a, ha⟩⟩
    · exact absurd h hf
    · by_cases hc : compliantDecision g v a ov (pathSuffix vf)
      · rw [media_phase_compliant env st vf ov evs g v a hG hf hv ha hc]
        refine ⟨rfl, ⟨[vf], ?_⟩⟩
        rw [mark_as_good]
        simp [hl]
      · rw [media_phase_transform env st vf ov evs g v a hG hf hv ha hc]
        rcases transform_phase_ledger env st vf
            (output_gformat_of g.format ov (pathSuffix vf))
            (if v.format ∈ _SUPPORTED_VCODECS then "copy" else _DEFAULT_VCODEC)
            (if is_supported_acodec a.format a.channel_s then "copy" else _DEFAULT_ACODEC)
            (evs ++ [Event.decision vf ov (output_gformat_of g.format ov (pathSuffix vf))])
            l hl with ⟨ho, hle⟩ | ⟨ho, hle⟩
        · exact ⟨by rw [ho]; rfl, ⟨_, hle⟩⟩
        · exact ⟨by rw [ho]; rfl, ⟨[], by simpa using hle⟩⟩

theorem process_file_no_raise (env : Env) (st : St) (p : String) (ov : Option String)
    (l : List String) (hl : st.ledger = some l) (hpg : probeGoodB env p = true) :
    isRaisedB (process_file env st p ov).2.1 = false ∧
    ∃ l2, (process_file env st p ov).1.ledger = some (l ++ l2) := by
  by_cases hext : supportedExtB p = true
  · by_cases hmem : p ∈ l
    · rw [process_file_ledger_hit_eq env st p ov l hext hl hmem]
      refine ⟨rfl, ⟨[], ?_⟩⟩
      rw [process_subtitle_ledger]
      simpa using hl
    · rw [process_file_to_media env st p ov l hext hl hmem]
      exact media_phase_no_raise env _ p ov _ l (by rw [process_subtitle_ledger]; exact hl) hpg
  · have hext' : supportedExtB p = false := by simpa using hext
    rw [process_file_ext_skip env st p ov hext']
    exact ⟨rfl, ⟨[], by simpa using hl⟩⟩

theorem process_file_skip (env : Env) (st : St) (p : String) (l : List String)
    (hl : st.ledger = some l)
    (hdisp : supportedExtB p = false ∨ p ∈ l ∨ probeEmptyB env p = true) :
    isSkipB (process_file env st p none).2.1 = true ∧
    (process_file env st p none).1.ledger = some l ∧
    ((process_file env st p none).2.2.all (fun e => !isMediaB e) = true) := by
  by_cases hext : supportedExtB p = true
  · by_cases hmem : p ∈ l
    · rw [process_file_ledger_hit_eq env st p none l hext hl hmem]
      refine ⟨rfl, ?_, ?_⟩
      · rw [process_subtitle_ledger]; exact hl
      · exact all_sub_no_media _ (process_subtitle_events env st p)
    · rcases hdisp with h | h | h
      · rw [hext] at h; exact absurd h (by simp)
      · exact absurd h hmem
      · rw [probeEmptyB] at h
        rcases hG : findTrack (env.probe p) "General" with _ | g
        · rw [hG] at h; simp at h
        · rw [hG] at h
          have hf : g.format = "" := by simpa using h
          rw [process_file_to_media env st p none l hext hl hmem]
          rw [media_phase_empty_format env _ p none _ g hG hf]
          refine ⟨rfl, ?_, ?_⟩
          · rw [process_subtitle_ledger]; exact hl
          · rw [List.all_append]
            have h1 := all_sub_no_media _ (process_subtitle_events env st p)
            rw [h1]
            rfl
  · have hext' : supportedExtB p = false := by simpa using hext
    rw [process_file_ext_skip env st p none hext']
    exact ⟨rfl, hl, rfl⟩

theorem process_file_ledger_hit (env : Env) (st : St) (p : String) (ov : Option String)
    (l : List String) (hext : supportedExtB p = true) (hl : st.ledger = some l) (hmem : p ∈ l) :
    (process_file env st p ov).2.1 = Outcome.skippedLedger ∧
    ((process_file env st p ov).2.2.all (fun e => !isProbeB e) = true) := by
  rw [process_file_ledger_hit_eq env st p ov l hext hl hmem]
  exact ⟨rfl, all_sub_no_probe _ (process_subtitle_events env st p)⟩

theorem process_file_transformed_ledger (env : Env) (st : St) (p : String) (ov : Option String)
    (l : List String) (hl : st.ledger = some l)
    (ht : (process_file env st p ov).2.1 = Outcome.transformed) :
    (process_file env st p ov).1.ledger =
      some (l ++ mediaDsts (process_file env st p ov).2.2) := by
  by_cases hext : supportedExtB p = true
  case neg =>
    have hext' : supportedExtB p = false := by simpa using hext
    rw [process_file_ext_skip env st p ov hext'] at ht
    exact absurd ht (by simp)
  case pos =>
  by_cases hmem : p ∈ l
  case pos =>
    rw [process_file_ledger_hit_eq env st p ov l hext hl hmem] at ht
    exact absurd ht (by simp)
  case neg =>
  have hsl : (process_subtitle_file env st p).1.ledger = some l := by
    rw [process_subtitle_ledger]; exact hl
  rw [process_file_to_media env st p ov l hext hl hmem] at ht ⊢
  rcases hG : findTrack (env.probe p) "General" with _ | g
  · rw [media_phase_no_general env _ p ov _ hG] at ht
    exact absurd ht (by simp)
  by_cases hf : g.format = ""
  · rw [media_phase_empty_format env _ p ov _ g hG hf] at ht
    exact absurd ht (by simp)
  rcases hV : findTrack (env.probe p) "Video" with _ | v
  · rw [media_phase_no_video env _ p ov _ g hG hf hV] at ht
    exact absurd ht (by simp)
  rcases hA : findTrack (env.probe p) "Audio" with _ | a
  · rw [media_phase_no_audio env _ p ov _ g v hG hf hV hA] at ht
    exact absurd ht (by simp)
  by_cases hc : compliantDecision g v a ov (pathSuffix p)
  · rw [media_phase_compliant env _ p ov _ g v a hG hf hV hA hc] at ht
    exact absurd ht (by simp)
  rw [media_phase_transform env _ p ov _ g v a hG hf hV hA hc] at ht ⊢
  rcases transform_phase_ledger env (process_subtitle_file env st p).1 p
      (output_gformat_of g.format ov (pathSuffix p))
      (if v.format ∈ _SUPPORTED_VCODECS then "copy" else _DEFAULT_VCODEC)
      (if is_supported_acodec a.format a.channel_s then "copy" else _DEFAULT_ACODEC)
      ((process_subtitle_file env st p).2 ++ [Event.probe p] ++
        [Event.decision p ov (output_gformat_of g.format ov (pathSuffix p))])
      l hsl with ⟨ho, hle⟩ | ⟨ho, hle⟩
  · rw [hle, transform_phase_events]
    have hs1 : mediaDsts (process_subtitle_file env st p).2 = [] :=
      mediaDsts_nil_of_no_media _ (all_sub_no_media _ (process_subtitle_events env st p))
    simp only [mediaDsts_append, hs1, mediaDsts_single_probe, mediaDsts_single_decision,
      mediaDsts_single_media, List.append_nil, List.nil_append]
  · rw [ho] at ht
    exact absurd ht (by simp)

theorem process_file_step (env : Env) (st : St) (p : String) (l : List String)
    (hl : st.ledger = some l) (hpg : probeGoodB env p = true)
    (hok : ∀ s d, isOkB (env.ffm s d) = true) :
    ∃ l2, (process_file env st p none).1.ledger = some (l ++ l2) ∧
      isRaisedB (process_file env st p none).2.1 = false ∧
      ∀ q, fsExists q (process_file env st p none).1.fs = true →
        supportedExtB q = false ∨ q ∈ l ++ l2 ∨ probeEmptyB env q = true ∨
        (fsExists q st.fs = true ∧ q ≠ p) := by
  by_cases hext : supportedExtB p = true
  case neg =>
    have hext' : supportedExtB p = false := by simpa using hext
    rw [process_file_ext_skip env st p none hext']
    refine ⟨[], by simpa using hl, rfl, ?_⟩
    intro q hq
    by_cases hqp : q = p
    · left; rw [hqp]; exact hext'
    · right; right; right; exact ⟨hq, hqp⟩
  case pos =>
  have hsl : (process_subtitle_file env st p).1.ledger = some l := by
    rw [process_subtitle_ledger]; exact hl
  have hsfs : ∀ q, fsExists q (process_subtitle_file env st p).1.fs = true →
      supportedExtB q = false ∨ fsExists q st.fs = true := by
    intro q hq
    rcases process_subtitle_fs env st p q hq with h | h
    · left; rw [h]; exact supportedExtB_vtt p
    · right; exact h
  by_cases hmem : p ∈ l
  case pos =>
    rw [process_file_ledger_hit_eq env st p none l hext hl hmem]
    refine ⟨[], by simpa using hsl, rfl, ?_⟩
    intro q hq
    rcases hsfs q hq with h | h
    · left; exact h
    · by_cases hqp : q = p
      · right; left; rw [hqp]; simpa using hmem
      · right; right; right; exact ⟨h, hqp⟩
  case neg =>
  rw [process_file_to_media env st p none l hext hl hmem]
  obtain ⟨g, hG, hrest⟩ := probeGoodB_elim env p hpg
  by_cases hf : g.format = ""
  · rw [media_phase_empty_format env _ p none _ g hG hf]
    refine ⟨[], by simpa using hsl, rfl, ?_⟩
    intro q hq
    rcases hsfs q hq with h | h
    · left; exact h
    · by_cases hqp : q = p
      · right; right; left
        rw [hqp, probeEmptyB, hG]
        simpa using hf
      · right; right; right; exact ⟨h, hqp⟩
  rcases hrest with h | ⟨⟨v, hV⟩, ⟨a, hA⟩⟩
  · exact absurd h hf
  by_cases hc : compliantDecision g v a none (pathSuffix p)
  · rw [media_phase_compliant env _ p none _ g v a hG hf hV hA hc]
    refine ⟨[p], ?_, rfl, ?_⟩
    · rw [mark_as_good]
      simp [hsl]
    · intro q hq
      rcases hsfs q hq with h | h
      · left; exact h
      · by_cases hqp : q = p
        · right; left; rw [hqp]; simp
        · right; right; right; exact ⟨h, hqp⟩
  · rw [media_phase_transform env _ p none _ g v a hG hf hV hA hc]
    rcases hffm : env.ffm p (destinationOf p (output_gformat_of g.format none (pathSuffix p)))
        with c | w
    · rcases transform_phase_ledger env (process_subtitle_file env st p).1 p
          (output_gformat_of g.format none (pathSuffix p))
          (if v.format ∈ _SUPPORTED_VCODECS then "copy" else _DEFAULT_VCODEC)
          (if is_supported_acodec a.format a.channel_s then "copy" else _DEFAULT_ACODEC)
          ((process_subtitle_file env st p).2 ++ [Event.probe p] ++
            [Event.decision p none (output_gformat_of g.format none (pathSuffix p))])
          l hsl with ⟨ho, hle⟩ | ⟨ho, hle⟩
      · refine ⟨[destinationOf p (output_gformat_of g.format none (pathSuffix p))], hle,
          by rw [ho]; rfl, ?_⟩
        intro q hq
        rcases transform_phase_fs_ok env (process_subtitle_file env st p).1 p
            (output_gformat_of g.format none (pathSuffix p))
            (if v.format ∈ _SUPPORTED_VCODECS then "copy" else _DEFAULT_VCODEC)
            (if is_supported_acodec a.format a.channel_s then "copy" else _DEFAULT_ACODEC)
            ((process_subtitle_file env st p).2 ++ [Event.probe p] ++
              [Event.decision p none (output_gformat_of g.format none (pathSuffix p))])
            q c hffm hq with h | ⟨hqp, h⟩
        · left; rw [h]; exact supportedExtB_backup p
        · rcases h with h | h
          · right; left; rw [h]; simp
          · rcases hsfs q h with h1 | h1
            · left; exact h1
            · right; right; right; exact ⟨h1, hqp⟩
      · rw [transform_phase_eq, hffm] at ho
        exact absurd ho (by simp)
    · have := hok p (destinationOf p (output_gformat_of g.format none (pathSuffix p)))
      rw [hffm] at this
      exact absurd this (by simp [isOkB])

/-! ### Batch-level lemmas -/

theorem isSkipB_not_raised (o : Outcome) (h : isSkipB o = true) : isRaisedB o = false := by
  cases o <;> simp [isSkipB, isRaisedB] at *

theorem any_raised_false (os : List (String × Outcome))
    (h : os.all (fun po => !isRaisedB po.2) = true) :
    os.any (fun po => isRaisedB po.2) = false := by
  rw [List.all_eq_true] at h
  cases hany : os.any (fun po => isRaisedB po.2) with
  | false => rfl
  | true =>
    rw [List.any_eq_true] at hany
    obtain ⟨x, hx, hr⟩ := hany
    have hh := h x hx
    rw [hr] at hh
    simp at hh

theorem runBatch_total (env : Env) (ov : Option String) :
    ∀ (cs : List String) (st : St) (l : List String), st.ledger = some l →
    (∀ p ∈ cs, probeGoodB env p = true) →
    ((runBatch env ov st cs).2.1.all (fun po => !isRaisedB po.2) = true) ∧
    (runBatch env ov st cs).2.1.length = cs.length ∧
    ∃ l2, (runBatch env ov st cs).1.ledger = some (l ++ l2) := by
  intro cs
  induction cs with
  | nil =>
    intro st l hl _
    exact ⟨rfl, rfl, ⟨[], by simpa using hl⟩⟩
  | cons p rest ih =>
    intro st l hl hpg
    obtain ⟨hnr, l2, hl2⟩ := process_file_no_raise env st p ov l hl (hpg p (List.mem_cons_self p rest))
    obtain ⟨ha, hlen, l3, hl3⟩ := ih (process_file env st p ov).1 (l ++ l2) hl2
      (fun q hq => hpg q (List.mem_cons_of_mem p hq))
    rw [runBatch]
    simp only [hnr, Bool.false_eq_true, if_false]
    refine ⟨?_, ?_, ⟨l2 ++ l3, ?_⟩⟩
    · rw [List.all_cons, hnr]
      simpa using ha
    · simpa using hlen
    · rw [hl3, List.append_assoc]

theorem runBatch_invariant (env : Env) (hok : ∀ s d, isOkB (env.ffm s d) = true) :
    ∀ (L : List String) (st : St) (l : List String), st.ledger = some l →
    (∀ p ∈ L, probeGoodB env p = true) →
    (∀ q, fsExists q st.fs = true →
      supportedExtB q = false ∨ q ∈ l ∨ probeEmptyB env q = true ∨ q ∈ L) →
    ∃ lf, (runBatch env none st L).1.ledger = some (l ++ lf) ∧
      ∀ q, fsExists q (runBatch env none st L).1.fs = true →
        supportedExtB q = false ∨ q ∈ l ++ lf ∨ probeEmptyB env q = true := by
  intro L
  induction L with
  | nil =>
    intro st l hl _ hinv
    refine ⟨[], by simpa using hl, ?_⟩
    intro q hq
    rcases hinv q hq with h | h | h | h
    · left; exact h
    · right; left; simpa using h
    · right; right; exact h
    · simp at h
  | cons p rest ih =>
    intro st l hl hpg hinv
    obtain ⟨l2, hl2, hnr, hdisp⟩ :=
      process_file_step env st p l hl (hpg p (List.mem_cons_self p rest)) hok
    have hinv2 : ∀ q, fsExists q (process_file env st p none).1.fs = true →
        supportedExtB q = false ∨ q ∈ l ++ l2 ∨ probeEmptyB env q = true ∨ q ∈ rest := by
      intro q hq
      rcases hdisp q hq with h | h | h | ⟨h1, h2⟩
      · left; exact h
      · right; left; exact h
      · right; right; left; exact h
      · rcases hinv q h1 with h | h | h | h
        · left; exact h
        · right; left; exact List.mem_append_left _ h
        · right; right; left; exact h
        · right; right; right
          rcases List.mem_cons.mp h with he | he
          · exact absurd he h2
          · exact he
    obtain ⟨lf, hlf, hinv'⟩ := ih (process_file env st p none).1 (l ++ l2) hl2
      (fun q hq => hpg q (List.mem_cons_of_mem p hq)) hinv2
    rw [runBatch]
    simp only [hnr, Bool.false_eq_true, if_false]
    refine ⟨l2 ++ lf, ?_, ?_⟩
    · rw [hlf, List.append_assoc]
    · intro q hq
      rcases hinv' q hq with h | h | h
      · left; exact h
      · right; left
        rw [List.append_assoc] at h
        exact h
      · right; right; exact h

theorem runBatch_skips (env : Env) :
    ∀ (L : List String) (st : St) (l : List String), st.ledger = some l →
    (∀ p ∈ L, supportedExtB p = false ∨ p ∈ l ∨ probeEmptyB env p = true) →
    (runBatch env none st L).1.ledger = some l ∧
    ((runBatch env none st L).2.1.all (fun po => isSkipB po.2) = true) ∧
    ((runBatch env none st L).2.2.all (fun e => !isMediaB e) = true) := by
  intro L
  induction L with
  | nil =>
    intro st l hl _
    exact ⟨hl, rfl, rfl⟩
  | cons p rest ih =>
    intro st l hl hdisp
    obtain ⟨hskip, hled, hnm⟩ :=
      process_file_skip env st p l hl (hdisp p (List.mem_cons_self p rest))
    have hnr := isSkipB_not_raised _ hskip
    obtain ⟨hled', hall, hnm'⟩ := ih (process_file env st p none).1 l hled
      (fun q hq => hdisp q (List.mem_cons_of_mem p hq))
    rw [runBatch]
    simp only [hnr, Bool.false_eq_true, if_false]
    refine ⟨hled', ?_, ?_⟩
    · rw [List.all_cons, hskip]
      simpa using hall
    · rw [List.all_append, hnm]
      simpa using hnm'

theorem main_no_raise (env : Env) :
    ∀ (inputs : List (String × PathKind)) (st : St) (l : List String), st.ledger = some l →
    (∀ pk ∈ inputs, ∀ q ∈ inputFiles pk, probeGoodB env q = true) →
    ((main env st inputs).2.1.all (fun po => !isRaisedB po.2) = true) ∧
    (main env st inputs).2.1.length = totalFiles inputs ∧
    ∃ l2, (main env st inputs).1.ledger = some (l ++ l2) := by
  intro inputs
  induction inputs with
  | nil =>
    intro st l hl _
    exact ⟨rfl, rfl, ⟨[], by simpa using hl⟩⟩
  | cons input rest ih =>
    intro st l hl hpg
    have hrest : ∀ pk ∈ rest, ∀ q ∈ inputFiles pk, probeGoodB env q = true :=
      fun pk hpk => hpg pk (List.mem_cons_of_mem input hpk)
    rcases input with ⟨p, k⟩
    cases k with
    | missing =>
      obtain ⟨ha, hlen, l2, hl2⟩ := ih st l hl hrest
      rw [main]
      refine ⟨?_, ?_, ⟨l2, hl2⟩⟩
      · rw [List.all_cons]
        simpa [isRaisedB] using ha
      · simp [totalFiles, hlen, Nat.add_comm]
    | special =>
      obtain ⟨ha, hlen, l2, hl2⟩ := ih st l hl hrest
      rw [main]
      refine ⟨?_, ?_, ⟨l2, hl2⟩⟩
      · rw [List.all_cons]
        simpa [isRaisedB] using ha
      · simp [totalFiles, hlen, Nat.add_comm]
    | file =>
      have hp : probeGoodB env p = true :=
        hpg (p, PathKind.file) (List.mem_cons_self _ rest) p (by simp [inputFiles])
      obtain ⟨hnr, l2, hl2⟩ := process_file_no_raise env st p none l hl hp
      obtain ⟨ha, hlen, l3, hl3⟩ := ih (process_file env st p none).1 (l ++ l2) hl2 hrest
      rw [main]
      simp only [hnr, Bool.false_eq_true, if_false]
      refine ⟨?_, ?_, ⟨l2 ++ l3, ?_⟩⟩
      · rw [List.all_cons, hnr]
        simpa using ha
      · simp [totalFiles, hlen, Nat.add_comm]
      · rw [hl3, List.append_assoc]
    | dir cs =>
      have hcs : ∀ q ∈ cs, probeGoodB env q = true :=
        fun q hq => hpg (p, PathKind.dir cs) (List.mem_cons_self _ rest) q (by simpa [inputFiles] using hq)
      obtain ⟨ha, hlen, l2, hl2⟩ := runBatch_total env none cs st l hl hcs
      obtain ⟨ha', hlen', l3, hl3⟩ := ih (runBatch env none st cs).1 (l ++ l2) hl2 hrest
      rw [main]
      simp only [any_raised_false _ ha, Bool.false_eq_true, if_false]
      refine ⟨?_, ?_, ⟨l2 ++ l3, ?_⟩⟩
      · rw [List.all_append, ha]
        simpa using ha'
      · simp [totalFiles, hlen, hlen', Nat.add_comm]
      · rw [hl3, List.append_assoc]

/-! ### Concrete instances for the closed theorems -/

theorem fsExists_singleton (k v q : String) (h : fsExists q [(k, v)] = true) : q = k := by
  rw [fsExists, fsLookup] at h
  split at h
  next he => exact he.symm
  next => rw [fsLookup] at h; simp at h

def envC1 : Env :=
  { probe := fun p =>
      if p = "/v/a.mkv" then
        [⟨"General", "Matroska", 0⟩, ⟨"Video", "AVC", 0⟩, ⟨"Audio", "AAC", 2⟩]
      else []
    ffm := fun _ _ => FfmpegResult.ok "converted"
    subFfm := fun _ _ => FfmpegResult.err none
    detectEnc := fun _ => "utf-8" }

def stC1 : St := { fs := [("/v/a.mkv", "orig")], ledger := some [] }

def envC3 : Env :=
  { probe := fun p =>
      if p = "/v/a.mp4" then
        [⟨"General", "AVI", 0⟩, ⟨"Video", "AVC", 0⟩, ⟨"Audio", "AAC", 2⟩]
      else []
    ffm := fun _ _ => FfmpegResult.ok "converted"
    subFfm := fun _ _ => FfmpegResult.err none
    detectEnc := fun _ => "utf-8" }

def stC3 : St := { fs := [("/v/a.mp4", "orig")], ledger := some [] }

def envC4 : Env :=
  { probe := fun p =>
      if p = "/v/a.mp4" then
        [⟨"General", "AVI", 0⟩, ⟨"Video", "AVC", 0⟩, ⟨"Audio", "AAC", 2⟩]
      else []
    ffm := fun _ _ => FfmpegResult.err (some "PART")
    subFfm := fun _ _ => FfmpegResult.err none
    detectEnc := fun _ => "utf-8" }

def stC4 : St := { fs := [("/v/a.mp4", "orig")], ledger := some [] }

def envC5 : Env :=
  { probe := fun p =>
      if p = "/v/a.mkv" then
        [⟨"General", "Matroska", 0⟩, ⟨"Video", "AVC", 0⟩, ⟨"Audio", "AAC", 2⟩]
      else []
    ffm := fun _ _ => FfmpegResult.ok "converted"
    subFfm := fun _ _ => FfmpegResult.err none
    detectEnc := fun _ => "utf-8" }

def stC5 : St := { fs := [("/v/a.mkv", "orig")], ledger := none }

def envC2x : Env :=
  { probe := fun p =>
      if p = "/v/f1.mkv" then [⟨"General", "Matroska", 0⟩, ⟨"Video", "AVC", 0⟩]
      else if p = "/v/f2.mkv" then
        [⟨"General", "Matroska", 0⟩, ⟨"Video", "AVC", 0⟩, ⟨"Audio", "AAC", 2⟩]
      else []
    ffm := fun _ _ => FfmpegResult.ok "converted"
    subFfm := fun _ _ => FfmpegResult.err none
    detectEnc := fun _ => "utf-8" }

def stC2x : St := { fs := [("/v/f1.mkv", "x1"), ("/v/f2.mkv", "x2")], ledger := some [] }

def envC2w : Env :=
  { probe := fun p =>
      if p = "/v/g1.mkv" then [⟨"General", "Matroska", 0⟩, ⟨"Video", "HEVC", 0⟩, ⟨"Audio", "AC-3", 6⟩]
      else if p = "/v/g2.mkv" then
        [⟨"General", "Matroska", 0⟩, ⟨"Video", "AVC", 0⟩, ⟨"Audio", "AAC", 2⟩]
      else []
    ffm := fun _ _ => FfmpegResult.err (some "engine error")
    subFfm := fun _ _ => FfmpegResult.err none
    detectEnc := fun _ => "utf-8" }

def stC2w : St := { fs := [("/v/g1.mkv", "y1"), ("/v/g2.mkv", "y2")], ledger := some [] }

def envC8 : Env :=
  { probe := fun p =>
      if p = "/v/c.mp4" then
        [⟨"General", "MPEG-4", 0⟩, ⟨"Video", "AVC", 0⟩, ⟨"Audio", "AAC", 2⟩]
      else []
    ffm := fun _ _ => FfmpegResult.ok "converted"
    subFfm := fun _ _ => FfmpegResult.err none
    detectEnc := fun _ => "utf-8" }

def stC8 : St := { fs := [("/v/c.mp4", "orig")], ledger := some [] }

def envC9 : Env :=
  { probe := fun p =>
      if p = "/v/b.mkv" then
        [⟨"General", "Matroska", 0⟩, ⟨"Video", "HEVC", 0⟩, ⟨"Audio", "AAC", 2⟩]
      else []
    ffm := fun _ _ => FfmpegResult.ok "conv"
    subFfm := fun _ _ => FfmpegResult.err none
    detectEnc := fun _ => "utf-8" }

def stC9 : St := { fs := [("/v/b.mkv", "orig")], ledger := some [] }

def envC10 : Env :=
  { probe := fun p =>
      if p = "/v/n.mkv" then [⟨"General", "Matroska", 0⟩, ⟨"Video", "AVC", 0⟩]
      else []
    ffm := fun _ _ => FfmpegResult.ok "converted"
    subFfm := fun _ _ => FfmpegResult.err none
    detectEnc := fun _ => "utf-8" }

def stC10 : St := { fs := [("/v/n.mkv", "x")], ledger := some [] }

/-! ### The claims -/

/-- C1: the `--mkv`/`--mp4` selection parsed at lines 22-25 is never handed
to `process_file`: lines 145-148 call `main(args.videofile)` and lines
138-141 call `process_file` without an override, so the decision step always
receives `None`.  With `--mp4` on a compliant Matroska file the decision
event records override `none` and the file is marked good, whereas passing
the `mp4` override explicitly would have produced a transform to `.mp4`. -/
theorem c1_cli_override_dropped :
    (runProgram CliOverride.mp4 envC1 stC1 [("/v/a.mkv", PathKind.file)]).2.1 =
      [("/v/a.mkv", Outcome.markedGood)] ∧
    (runProgram CliOverride.mp4 envC1 stC1 [("/v/a.mkv", PathKind.file)]).2.2 =
      [Event.probe "/v/a.mkv", Event.decision "/v/a.mkv" none "ok"] ∧
    (process_file envC1 stC1 "/v/a.mkv" (some "mp4")).2.1 = Outcome.transformed ∧
    (process_file envC1 stC1 "/v/a.mkv" (some "mp4")).2.2 =
      [Event.probe "/v/a.mkv", Event.decision "/v/a.mkv" (some "mp4") "mp4",
       Event.media "/v/a.mkv" "/v/a.mp4" "copy" "copy"] := by
  decide

/-- C3: for the file `/v/a.mp4` whose probed container is `AVI` (not
supported), the default output container is `mp4` and the derived
destination equals the source path, violating "destination must never equal
source"; and in the container-unchanged case the destination is
`<stem>..<ext>` (double dot), not `<name>.<output-ext>`. -/
theorem c3_destination_equals_source :
    (process_file envC3 stC3 "/v/a.mp4" none).2.2 =
      [Event.probe "/v/a.mp4", Event.decision "/v/a.mp4" none "mp4",
       Event.media "/v/a.mp4" "/v/a.mp4" "copy" "copy"] ∧
    destinationOf "/v/a.mp4" "mp4" = "/v/a.mp4" ∧
    destinationOf "/v/b.mkv" "ok" = "/v/b..mkv" := by
  decide

/-- C4: when the transform fails partway on the colliding input
(destination = source), `on_failure` deletes the destination, which is the
original: afterwards the source no longer exists with its original content.
The ledger is untouched, as claimed. -/
theorem c4_failure_destroys_original :
    fsLookup "/v/a.mp4" stC4.fs = some "orig" ∧
    (process_file envC4 stC4 "/v/a.mp4" none).2.1 = Outcome.transformFailed ∧
    fsLookup "/v/a.mp4" (process_file envC4 stC4 "/v/a.mp4" none).1.fs = none ∧
    (process_file envC4 stC4 "/v/a.mp4" none).1.ledger = some [] := by
  decide

/-- C5: with the ledger file absent, processing a supported file raises
`FileNotFoundError` at the membership check (line 81 opens the ledger for
reading); only the append of `mark_as_good` (mode `'a'`) creates the file. -/
theorem c5_absent_ledger_raises :
    (process_file envC5 stC5 "/v/a.mkv" none).2.1 = Outcome.raised RunError.fileNotFound ∧
    (mark_as_good "/v/a.mkv" stC5).ledger = some ["/v/a.mkv"] := by
  decide

/-- C6: whenever the override equals the file's current extension (the
`video_file.suffix` value, dot included), the container decision of lines
95-99 is "ok" (unchanged), exactly as for a supported probed container with
no override. -/
theorem c6_override_matching_extension (video_file fmt : String) :
    output_gformat_of fmt (some (pathSuffix video_file)) (pathSuffix video_file) = "ok" ∧
    (fmt ∈ _SUPPORTED_GFORMATS → output_gformat_of fmt none (pathSuffix video_file) = "ok") := by
  constructor
  · rw [output_gformat_of, if_pos]
    right
    rfl
  · intro h
    rw [output_gformat_of, if_pos]
    left
    exact ⟨h, Or.inl rfl⟩

theorem c6_witness :
    ("MPEG-4" : String) ∈ _SUPPORTED_GFORMATS ∧
    output_gformat_of "MPEG-4" (some (pathSuffix "/v/a.mkv")) (pathSuffix "/v/a.mkv") = "ok" ∧
    output_gformat_of "MPEG-4" none (pathSuffix "/v/a.mkv") = "ok" :=
  ⟨by decide, (c6_override_matching_extension "/v/a.mkv" "MPEG-4").1,
   (c6_override_matching_extension "/v/a.mkv" "MPEG-4").2 (by decide)⟩

/-- C7: audio is copied iff the codec is in the supported set and it is not
AAC with more than two channels; AAC with at most 2 channels is compatible
and AAC with at least 3 channels is not. -/
theorem c7_audio_compat (codec : String) (channels : Nat) :
    (is_supported_acodec codec channels = true ↔
      (codec ∈ _SUPPORTED_ACODECS ∧ ¬(codec = "AAC" ∧ 2 < channels))) ∧
    (channels ≤ 2 → is_supported_acodec "AAC" channels = true) ∧
    (3 ≤ channels → is_supported_acodec "AAC" channels = false) := by
  refine ⟨?_, ?_, ?_⟩
  · rw [is_supported_acodec]
    simp only [Bool.and_eq_true, Bool.not_eq_true', Bool.and_eq_false_iff,
      decide_eq_true_eq, beq_eq_false_iff_ne, ne_eq, decide_eq_false_iff_not, not_lt]
    constructor
    · rintro ⟨h1, h2⟩
      refine ⟨h2, ?_⟩
      rintro ⟨he, hch⟩
      rcases h1 with h | h
      · exact h he
      · omega
    · rintro ⟨h1, h2⟩
      refine ⟨?_, h1⟩
      by_cases he : codec = "AAC"
      · right
        by_contra hch
        exact h2 ⟨he, by omega⟩
      · left; exact he
  · intro h
    rw [is_supported_acodec]
    have : decide (2 < channels) = false := by
      simp only [decide_eq_false_iff_not, not_lt]
      exact h
    rw [this]
    decide
  · intro h
    rw [is_supported_acodec]
    have : decide (2 < channels) = true := by
      simp only [decide_eq_true_eq]
      omega
    rw [this]
    decide

theorem c7_witness :
    (2 : Nat) ≤ 2 ∧ (3 : Nat) ≤ 3 ∧
    is_supported_acodec "AAC" 2 = true ∧ is_supported_acodec "AAC" 3 = false :=
  ⟨by decide, by decide, (c7_audio_compat "AAC" 2).2.1 (by decide),
   (c7_audio_compat "AAC" 3).2.2 (by decide)⟩

/-- C10: a supported candidate not yet in the ledger whose probe has a
General track with non-empty format but no Video track (or no Audio track)
is not skipped with a reported error: the unguarded `next(filter(...))`
raises `StopIteration`; only an empty General format is handled as a skip. -/
theorem c10_missing_track_raises (env : Env) (st : St) (p : String) (l : List String) (g : Track)
    (hext : supportedExtB p = true) (hl : st.ledger = some l) (hnl : p ∉ l)
    (hg : findTrack (env.probe p) "General" = some g) :
    (¬ g.format = "" →
      (findTrack (env.probe p) "Video" = none ∨ findTrack (env.probe p) "Audio" = none) →
      (process_file env st p none).2.1 = Outcome.raised RunError.stopIteration) ∧
    (g.format = "" → (process_file env st p none).2.1 = Outcome.skippedProbe) := by
  constructor
  · intro hf hva
    rw [process_file_to_media env st p none l hext hl hnl]
    rcases hva with hv | ha
    · rw [media_phase_no_video env _ p none _ g hg hf hv]
    · rcases hV : findTrack (env.probe p) "Video" with _ | v
      · rw [media_phase_no_video env _ p none _ g hg hf hV]
      · rw [media_phase_no_audio env _ p none _ g v hg hf hV ha]
  · intro hf
    rw [process_file_to_media env st p none l hext hl hnl]
    rw [media_phase_empty_format env _ p none _ g hg hf]

theorem c10_witness :
    supportedExtB "/v/n.mkv" = true ∧
    (process_file envC10 stC10 "/v/n.mkv" none).2.1 = Outcome.raised RunError.stopIteration :=
  ⟨by decide,
   (c10_missing_track_raises envC10 stC10 "/v/n.mkv" [] ⟨"General", "Matroska", 0⟩
      (by decide) rfl (by decide) (by decide)).1 (by decide) (Or.inr (by decide))⟩

/-- C8: for a probed file, no media transform is invoked iff the decision is
video copy, audio copy, container unchanged; in the compliant case the
original path is appended to the ledger and the media file's filesystem
entry is untouched; otherwise a media transform invocation occurs. -/
theorem c8_compliant_iff_no_transform (env : Env) (st : St) (p : String) (ov : Option String)
    (l : List String) (g v a : Track)
    (hext : supportedExtB p = true) (hl : st.ledger = some l) (hnl : p ∉ l)
    (hg : findTrack (env.probe p) "General" = some g) (hgf : ¬ g.format = "")
    (hv : findTrack (env.probe p) "Video" = some v)
    (ha : findTrack (env.probe p) "Audio" = some a) :
    (((process_file env st p ov).2.2.all (fun e => !isMediaB e)) = true ↔
      compliantDecision g v a ov (pathSuffix p)) ∧
    (compliantDecision g v a ov (pathSuffix p) →
      (process_file env st p ov).2.1 = Outcome.markedGood ∧
      (process_file env st p ov).1.ledger = some (l ++ [p]) ∧
      fsLookup p (process_file env st p ov).1.fs = fsLookup p st.fs) ∧
    (¬ compliantDecision g v a ov (pathSuffix p) →
      ((process_file env st p ov).2.2.any (fun e => isMediaB e)) = true) := by
  have hvtt : p ≠ withSuffix p ".vtt" := fun he => vtt_ne_self p hext he.symm
  rw [process_file_to_media env st p ov l hext hl hnl]
  by_cases hc : compliantDecision g v a ov (pathSuffix p)
  · rw [media_phase_compliant env _ p ov _ g v a hg hgf hv ha hc]
    refine ⟨?_, ?_, fun hcontra => absurd hc hcontra⟩
    · constructor
      · intro _
        exact hc
      · intro _
        rw [List.all_append, List.all_append]
        rw [all_sub_no_media _ (process_subtitle_events env st p)]
        rfl
    · intro _
      refine ⟨rfl, ?_, ?_⟩
      · rw [mark_as_good]
        simp only
        rw [process_subtitle_ledger]
        simp [hl]
      · rw [mark_as_good]
        simp only
        exact process_subtitle_fs_ne env st p p hvtt
  · rw [media_phase_transform env _ p ov _ g v a hg hgf hv ha hc]
    rw [transform_phase_events]
    refine ⟨?_, fun hcc => absurd hcc hc, ?_⟩
    · constructor
      · intro hall
        exfalso
        rw [List.all_append] at hall
        rw [Bool.and_eq_true] at hall
        have := hall.2
        simp [isMediaB] at this
      · intro hcc
        exact absurd hcc hc
    · intro _
      rw [List.any_append]
      have : ([Event.media p (destinationOf p (output_gformat_of g.format ov (pathSuffix p)))
          (if v.format ∈ _SUPPORTED_VCODECS then "copy" else _DEFAULT_VCODEC)
          (if is_supported_acodec a.format a.channel_s then "copy" else _DEFAULT_ACODEC)].any
          (fun e => isMediaB e)) = true := by
        simp [isMediaB]
      rw [this]
      simp

theorem c8_witness :
    supportedExtB "/v/c.mp4" = true ∧
    compliantDecision ⟨"General", "MPEG-4", 0⟩ ⟨"Video", "AVC", 0⟩ ⟨"Audio", "AAC", 2⟩
      none (pathSuffix "/v/c.mp4") ∧
    (process_file envC8 stC8 "/v/c.mp4" none).2.1 = Outcome.markedGood ∧
    (process_file envC8 stC8 "/v/c.mp4" none).1.ledger = some ([] ++ ["/v/c.mp4"]) := by
  have h := (c8_compliant_iff_no_transform envC8 stC8 "/v/c.mp4" none []
    ⟨"General", "MPEG-4", 0⟩ ⟨"Video", "AVC", 0⟩ ⟨"Audio", "AAC", 2⟩
    (by decide) rfl (by decide) (by decide) (by decide) (by decide) (by decide)).2.1 (by decide)
  exact ⟨by decide, by decide, h.1, h.2.1⟩

/-- C2 (counterexample): a batch over a directory whose first file probes
with no Audio track aborts with the raised `StopIteration`: the second file
gets no outcome at all, so the error was not contained per-file. -/
theorem c2_batch_abort_counterexample :
    (main envC2x stC2x [("/v", PathKind.dir ["/v/f1.mkv", "/v/f2.mkv"])]).2.1 =
      [("/v/f1.mkv", Outcome.raised RunError.stopIteration)] := by
  decide

/-- C2 (amended): per-file transform failures are contained — with the
ledger present and every candidate's probe exposing the required tracks,
the batch never raises and every file receives an outcome, whatever the
transform oracle answers.  (A missing ledger or a missing Video/Audio track
still raises out of the runner, per the counterexample.) -/
theorem c2_contained_when_probe_good (env : Env) (inputs : List (String × PathKind)) (st : St)
    (l : List String) (hl : st.ledger = some l)
    (hpg : ∀ pk ∈ inputs, ∀ q ∈ inputFiles pk, probeGoodB env q = true) :
    ((main env st inputs).2.1.all (fun po => !isRaisedB po.2) = true) ∧
    (main env st inputs).2.1.length = totalFiles inputs := by
  obtain ⟨h1, h2, _⟩ := main_no_raise env inputs st l hl hpg
  exact ⟨h1, h2⟩

theorem c2_witness :
    stC2w.ledger = some [] ∧
    ((main envC2w stC2w [("/v", PathKind.dir ["/v/g1.mkv", "/v/g2.mkv"])]).2.1.all
      (fun po => !isRaisedB po.2) = true) ∧
    (main envC2w stC2w [("/v", PathKind.dir ["/v/g1.mkv", "/v/g2.mkv"])]).2.1.length =
      totalFiles [("/v", PathKind.dir ["/v/g1.mkv", "/v/g2.mkv"])] := by
  have h := c2_contained_when_probe_good envC2w [("/v", PathKind.dir ["/v/g1.mkv", "/v/g2.mkv"])]
    stC2w [] rfl (by decide)
  exact ⟨rfl, h.1, h.2⟩

/-- C9: with a transform oracle that always succeeds, a present ledger, a
first pass covering every existing file, and well-formed probes, a second
pass over any files existing afterwards changes no ledger line, invokes no
media transform and ends every file in a skip; moreover a ledger-hit file is
skipped before the probe is ever called, and a successful transform appends
the destination path to the ledger. -/
theorem c9_idempotent (env : Env) (st0 : St) (L L2 : List String) (l0 : List String)
    (hffm : ∀ s d, isOkB (env.ffm s d) = true)
    (hled : st0.ledger = some l0)
    (hdom : ∀ q, fsExists q st0.fs = true → q ∈ L)
    (hpg : ∀ p ∈ L, probeGoodB env p = true)
    (hL2 : ∀ p ∈ L2, fsExists p (runBatch env none st0 L).1.fs = true) :
    ((runBatch env none (runBatch env none st0 L).1 L2).1.ledger =
      (runBatch env none st0 L).1.ledger) ∧
    ((runBatch env none (runBatch env none st0 L).1 L2).2.1.all
      (fun po => isSkipB po.2) = true) ∧
    ((runBatch env none (runBatch env none st0 L).1 L2).2.2.all
      (fun e => !isMediaB e) = true) ∧
    (∀ (st : St) (p : String) (ov : Option String) (l : List String),
      supportedExtB p = true → st.ledger = some l → p ∈ l →
      (process_file env st p ov).2.1 = Outcome.skippedLedger ∧
      ((process_file env st p ov).2.2.all (fun e => !isProbeB e) = true)) ∧
    (∀ (st : St) (p : String) (ov : Option String) (l : List String),
      st.ledger = some l → (process_file env st p ov).2.1 = Outcome.transformed →
      (process_file env st p ov).1.ledger =
        some (l ++ mediaDsts (process_file env st p ov).2.2)) := by
  obtain ⟨lf, hlf, hinv⟩ := runBatch_invariant env hffm L st0 l0 hled hpg
    (fun q hq => Or.inr (Or.inr (Or.inr (hdom q hq))))
  have hdisp2 : ∀ p ∈ L2, supportedExtB p = false ∨ p ∈ l0 ++ lf ∨ probeEmptyB env p = true :=
    fun p hp => hinv p (hL2 p hp)
  obtain ⟨hled2, hskips, hnomedia⟩ := runBatch_skips env L2 (runBatch env none st0 L).1
    (l0 ++ lf) hlf hdisp2
  refine ⟨?_, hskips, hnomedia, ?_, ?_⟩
  · rw [hled2, hlf]
  · intro st p ov l hext hl hmem
    exact process_file_ledger_hit env st p ov l hext hl hmem
  · intro st p ov l hl ht
    exact process_file_transformed_ledger env st p ov l hl ht

theorem c9_witness :
    probeGoodB envC9 "/v/b.mkv" = true ∧
    ((runBatch envC9 none (runBatch envC9 none stC9 ["/v/b.mkv"]).1
        ["/v/b..mkv", "/v/b.mkv.bak"]).1.ledger =
      (runBatch envC9 none stC9 ["/v/b.mkv"]).1.ledger) ∧
    ((runBatch envC9 none (runBatch envC9 none stC9 ["/v/b.mkv"]).1
        ["/v/b..mkv", "/v/b.mkv.bak"]).2.1.all (fun po => isSkipB po.2) = true) ∧
    ((runBatch envC9 none (runBatch envC9 none stC9 ["/v/b.mkv"]).1
        ["/v/b..mkv", "/v/b.mkv.bak"]).2.2.all (fun e => !isMediaB e) = true) ∧
    (process_file envC9 (runBatch envC9 none stC9 ["/v/b.mkv"]).1 "/v/b..mkv" none).2.1 =
      Outcome.skippedLedger ∧
    (process_file envC9 stC9 "/v/b.mkv" none).1.ledger =
      some ([] ++ mediaDsts (process_file envC9 stC9 "/v/b.mkv" none).2.2) := by
  have h := c9_idempotent envC9 stC9 ["/v/b.mkv"] ["/v/b..mkv", "/v/b.mkv.bak"] []
    (fun s d => rfl) rfl
    (fun q hq => by simp [fsExists_singleton "/v/b.mkv" "orig" q hq])
    (by decide) (by decide)
  refine ⟨by decide, h.1, h.2.1, h.2.2.1, ?_, ?_⟩
  · exact (h.2.2.2.1 (runBatch envC9 none stC9 ["/v/b.mkv"]).1 "/v/b..mkv" none
      ["/v/b..mkv"] (by decide) (by decide) (by decide)).1
  · exact h.2.2.2.2 stC9 "/v/b.mkv" none [] rfl (by decide)
